import Mathlib

/-!
Shallow embedding of `crates/lakekeeper/src/implementations/postgres/user.rs`:
the user-directory data-access layer (list with keyset pagination, upsert with
created/updated tagging, soft delete, bounded fuzzy search).

The relational store is modelled as a list of table rows (`StoredUser`); each
repository operation is a pure function of the store (and an explicit `now`
timestamp replacing the SQL `now()`).  Parts of the repository that are not in
the visible source (the `UserId` string codec, the pagination-token codec, the
page-size configuration, the schema's `updated_at` trigger and the store's
trigram-distance operator) are modelled from the specification; each such
definition says so in its doc comment.
-/

namespace Lakekeeper

/-- Storage-level enumeration `user_last_updated_with`
(source `enum DbUserLastUpdatedWith`). -/
inductive DbUserLastUpdatedWith where
  | createEndpoint
  | configCallCreation
  | updateEndpoint
deriving DecidableEq, Repr

/-- Storage-level enumeration `user_type` (source `enum DbUserType`). -/
inductive DbUserType where
  | application
  | human
deriving DecidableEq, Repr

/-- Domain enumeration `UserLastUpdatedWith` (management API type). -/
inductive UserLastUpdatedWith where
  | createEndpoint
  | configCallCreation
  | updateEndpoint
deriving DecidableEq, Repr

/-- Domain enumeration `UserType` (management API type). -/
inductive UserType where
  | application
  | human
deriving DecidableEq, Repr

/-- Source `impl From<DbUserType> for UserType`. -/
def userTypeFromDb : DbUserType → UserType
  | DbUserType.application => UserType.application
  | DbUserType.human => UserType.human

/-- Source `impl From<UserType> for DbUserType`. -/
def dbFromUserType : UserType → DbUserType
  | UserType.application => DbUserType.application
  | UserType.human => DbUserType.human

/-- The `last_updated_with` match arm inside `TryFrom<UserRow> for User`. -/
def luwFromDb : DbUserLastUpdatedWith → UserLastUpdatedWith
  | DbUserLastUpdatedWith.createEndpoint => UserLastUpdatedWith.createEndpoint
  | DbUserLastUpdatedWith.configCallCreation => UserLastUpdatedWith.configCallCreation
  | DbUserLastUpdatedWith.updateEndpoint => UserLastUpdatedWith.updateEndpoint

/-- The `db_last_updated_with` match inside `create_or_update_user`. -/
def dbFromLuw : UserLastUpdatedWith → DbUserLastUpdatedWith
  | UserLastUpdatedWith.createEndpoint => DbUserLastUpdatedWith.createEndpoint
  | UserLastUpdatedWith.configCallCreation => DbUserLastUpdatedWith.configCallCreation
  | UserLastUpdatedWith.updateEndpoint => DbUserLastUpdatedWith.updateEndpoint

/-- Modelled from the spec: the structured identifier `UserId`
(`crate::service::UserId`, not under the visible source).  Per §3 it is a
composite identifier (issuer + subject); its string form round-trips through
parsing. -/
structure UserId where
  issuer : String
  subject : String
deriving DecidableEq, Repr

/-- Modelled from the spec: `UserId::to_string`, the storage string form of the
composite identifier. -/
def UserId.toString (u : UserId) : String := u.issuer ++ "~" ++ u.subject

/-- Splits a character list at the first occurrence of the tilde separator. -/
def splitAtTilde : List Char → Option (List Char × List Char)
  | [] => none
  | c :: cs =>
    if c = '~' then some ([], cs)
    else (splitAtTilde cs).map (fun p => (c :: p.1, p.2))

/-- Modelled from the spec: `TryFrom<String> for UserId` (`id.try_into()` in
the row mapping, not under the visible source).  Parsing fails — the
`MappingError` / data-corruption signal of §7 — when the stored string is not
of the composite `issuer ~ subject` form. -/
def UserId.tryFrom (s : String) : Option UserId :=
  match splitAtTilde s.data with
  | none => none
  | some (i, sub) =>
    if i.isEmpty || sub.isEmpty then none else some ⟨⟨i⟩, ⟨sub⟩⟩

/-- A well-formed `UserId`: one whose string form parses back to itself.
Identifiers produced by the identity layer satisfy this. -/
def UserId.wf (u : UserId) : Prop := UserId.tryFrom u.toString = some u

instance (u : UserId) : Decidable u.wf := by unfold UserId.wf; infer_instance

/-- A row of the `users` table (the storage schema of §6: the source `UserRow`
columns plus the `deleted_at` soft-delete marker). -/
structure StoredUser where
  id : String
  name : String
  email : Option String
  last_updated_with : DbUserLastUpdatedWith
  user_type : DbUserType
  created_at : Nat
  updated_at : Option Nat
  deleted_at : Option Nat
deriving DecidableEq, Repr

/-- The source `struct UserRow`: the columns selected by `list_users` (no
`deleted_at`). -/
structure UserRow where
  id : String
  name : String
  email : Option String
  last_updated_with : DbUserLastUpdatedWith
  user_type : DbUserType
  created_at : Nat
  updated_at : Option Nat
deriving DecidableEq, Repr

/-- The SELECT projection of a table row onto the source `UserRow` columns. -/
def StoredUser.toRow (r : StoredUser) : UserRow :=
  { id := r.id, name := r.name, email := r.email,
    last_updated_with := r.last_updated_with, user_type := r.user_type,
    created_at := r.created_at, updated_at := r.updated_at }

/-- The domain entity `User` (management API type). -/
structure User where
  id : UserId
  name : String
  email : Option String
  user_type : UserType
  last_updated_with : UserLastUpdatedWith
  created_at : Nat
  updated_at : Option Nat
deriving DecidableEq, Repr

/-- The error kinds of §7. -/
inductive Error where
  | storeError
  | invalidToken
  | mappingError
deriving DecidableEq, Repr

instance {ε α : Type} [DecidableEq ε] [DecidableEq α] : DecidableEq (Except ε α) :=
  fun a b =>
    match a, b with
    | Except.error e, Except.error f =>
      if h : e = f then isTrue (by rw [h])
      else isFalse (by intro hx; cases hx; exact h rfl)
    | Except.error _, Except.ok _ => isFalse (by intro hx; cases hx)
    | Except.ok _, Except.error _ => isFalse (by intro hx; cases hx)
    | Except.ok x, Except.ok y =>
      if h : x = y then isTrue (by rw [h])
      else isFalse (by intro hx; cases hx; exact h rfl)

/-- Source `impl TryFrom<UserRow> for User`: fails with the mapping error when
the stored id does not parse back into the structured identifier. -/
def User.tryFrom (r : UserRow) : Except Error User :=
  match UserId.tryFrom r.id with
  | none => Except.error Error.mappingError
  | some uid =>
    Except.ok
      { id := uid, name := r.name, email := r.email,
        user_type := userTypeFromDb r.user_type,
        last_updated_with := luwFromDb r.last_updated_with,
        created_at := r.created_at, updated_at := r.updated_at }

/-- The total row-to-user map used to state theorems: agrees with
`User.tryFrom` on every row whose id parses. -/
def toUserD (r : StoredUser) : User :=
  { id := (UserId.tryFrom r.id).getD ⟨"", ""⟩, name := r.name, email := r.email,
    user_type := userTypeFromDb r.user_type,
    last_updated_with := luwFromDb r.last_updated_with,
    created_at := r.created_at, updated_at := r.updated_at }

/-! ### SQL LIKE pattern matching (the `ILIKE` operator of the list query) -/

/-- Tries a predicate on every suffix of a character list (the expansion of a
percent-sign wildcard). -/
def likeStar (f : List Char → Bool) : List Char → Bool
  | [] => f []
  | c :: s => f (c :: s) || likeStar f s

/-- SQL `LIKE` pattern matching on character lists: a percent sign matches any
sequence, an underscore matches any single character, a backslash escapes the
following pattern character. -/
def likeMatch : List Char → List Char → Bool
  | [], s => s.isEmpty
  | '%' :: ps, s => likeStar (fun s2 => likeMatch ps s2) s
  | '_' :: ps, s =>
    (match s with
     | [] => false
     | _ :: s2 => likeMatch ps s2)
  | '\\' :: p :: ps, s =>
    (match s with
     | [] => false
     | c :: s2 => p == c && likeMatch ps s2)
  | p :: ps, s =>
    (match s with
     | [] => false
     | c :: s2 => p == c && likeMatch ps s2)

/-- Lower-cases a string character-wise (the case folding of `ILIKE`). -/
def lowerStr (s : String) : String := ⟨s.data.map Char.toLower⟩

/-- The `ILIKE` operator: case-insensitive SQL LIKE pattern matching. -/
def ilike (s pat : String) : Bool := likeMatch (lowerStr pat).data (lowerStr s).data

/-- Case-insensitive substring containment — the wording of the specification
for the name filter ("name case-insensitive-contains the filter string"),
stated independently of the SQL pattern matcher. -/
def containsCS : List Char → List Char → Bool
  | hay, needle =>
    needle.isPrefixOf hay ||
      (match hay with
       | [] => false
       | _ :: t => containsCS t needle)

/-- Case-insensitive containment on strings. -/
def containsCI (hay needle : String) : Bool :=
  containsCS (lowerStr hay).data (lowerStr needle).data

/-! ### Ordering on rows: the `(created_at, id)` pagination key -/

/-- Strict lexicographic comparison of character lists (the store's ordering of
the text `id` column). -/
def charListLt : List Char → List Char → Bool
  | [], [] => false
  | [], _ :: _ => true
  | _ :: _, [] => false
  | a :: as, b :: bs =>
    decide (a.toNat < b.toNat) || (decide (a = b) && charListLt as bs)

/-- Strict lexicographic comparison of strings. -/
def strLtB (a b : String) : Bool := charListLt a.data b.data

theorem charToNat_inj {a b : Char} (h : a.toNat = b.toNat) : a = b :=
  Char.eq_of_val_eq (UInt32.toNat.inj h)

theorem charListLt_irrefl : ∀ l, charListLt l l = false := by
  intro l
  induction l with
  | nil => rfl
  | cons a as ih => simp [charListLt, ih]

theorem charListLt_asymm :
    ∀ {l₁ l₂}, charListLt l₁ l₂ = true → charListLt l₂ l₁ = false := by
  intro l₁
  induction l₁ with
  | nil => intro l₂ h; cases l₂ <;> simp_all [charListLt]
  | cons a as ih =>
    intro l₂ h
    cases l₂ with
    | nil => simp_all [charListLt]
    | cons b bs =>
      simp only [charListLt, Bool.or_eq_true, Bool.and_eq_true,
        decide_eq_true_eq] at h
      simp only [charListLt, Bool.or_eq_false_iff, Bool.and_eq_false_iff,
        decide_eq_false_iff_not, Bool.not_eq_true]
      rcases h with h | ⟨rfl, h⟩
      · exact ⟨by omega, Or.inl (fun e => by rw [e] at h; omega)⟩
      · exact ⟨by omega, Or.inr (ih h)⟩

theorem charListLt_trans :
    ∀ {l₁ l₂ l₃}, charListLt l₁ l₂ = true → charListLt l₂ l₃ = true →
      charListLt l₁ l₃ = true := by
  intro l₁
  induction l₁ with
  | nil =>
    intro l₂ l₃ h₁ h₂
    cases l₂ <;> cases l₃ <;> simp_all [charListLt]
  | cons a as ih =>
    intro l₂ l₃ h₁ h₂
    cases l₂ with
    | nil => simp_all [charListLt]
    | cons b bs =>
      cases l₃ with
      | nil => simp_all [charListLt]
      | cons c cs =>
        simp only [charListLt, Bool.or_eq_true, Bool.and_eq_true,
          decide_eq_true_eq] at h₁ h₂ ⊢
        rcases h₁ with h₁ | ⟨rfl, h₁⟩ <;> rcases h₂ with h₂ | ⟨e₂, h₂⟩
        · exact Or.inl (by omega)
        · exact Or.inl (e₂ ▸ h₁)
        · exact Or.inl h₂
        · exact Or.inr ⟨e₂, ih h₁ h₂⟩

theorem charListLt_connex :
    ∀ {l₁ l₂}, charListLt l₁ l₂ = false → charListLt l₂ l₁ = false → l₁ = l₂ := by
  intro l₁
  induction l₁ with
  | nil => intro l₂ h₁ _; cases l₂ <;> simp_all [charListLt]
  | cons a as ih =>
    intro l₂ h₁ h₂
    cases l₂ with
    | nil => simp_all [charListLt]
    | cons b bs =>
      simp only [charListLt, Bool.or_eq_false_iff, Bool.and_eq_false_iff,
        decide_eq_false_iff_not, Bool.not_eq_true] at h₁ h₂
      have hab : a = b := charToNat_inj (by omega)
      subst hab
      rcases h₁.2 with e₁ | e₁
      · exact absurd rfl e₁
      · rcases h₂.2 with e₂ | e₂
        · exact absurd rfl e₂
        · rw [ih e₁ e₂]

theorem strLtB_irrefl (s : String) : strLtB s s = false := charListLt_irrefl _

theorem strLtB_asymm {a b : String} (h : strLtB a b = true) : strLtB b a = false :=
  charListLt_asymm h

theorem strLtB_trans {a b c : String} (h₁ : strLtB a b = true)
    (h₂ : strLtB b c = true) : strLtB a c = true := charListLt_trans h₁ h₂

theorem strLtB_connex {a b : String} (h₁ : strLtB a b = false)
    (h₂ : strLtB b a = false) : a = b := by
  cases a; cases b
  exact congrArg String.mk (charListLt_connex h₁ h₂)

theorem strLtB_notlt_trans {a b c : String} (h₁ : strLtB b a = false)
    (h₂ : strLtB c b = false) : strLtB c a = false := by
  by_contra h
  rw [Bool.not_eq_false] at h
  rcases hab : strLtB a b with _ | _
  · rw [strLtB_connex hab h₁] at h
    rw [h] at h₂
    exact Bool.false_ne_true h₂.symm
  · have := strLtB_trans h hab
    rw [this] at h₂
    exact Bool.false_ne_true h₂.symm

/-- The reflexive `(created_at, id)` lexicographic order used by
`ORDER BY u.created_at, u.id ASC`. -/
def rowLe (a b : StoredUser) : Prop :=
  a.created_at < b.created_at ∨
    (a.created_at = b.created_at ∧ strLtB b.id a.id = false)

/-- The strict `(created_at, id)` lexicographic order. -/
def rowLt (a b : StoredUser) : Prop :=
  a.created_at < b.created_at ∨
    (a.created_at = b.created_at ∧ strLtB a.id b.id = true)

instance : DecidableRel rowLe := fun a b => by unfold rowLe; infer_instance

instance : DecidableRel rowLt := fun a b => by unfold rowLt; infer_instance

instance : IsTotal StoredUser rowLe where
  total a b := by
    unfold rowLe
    rcases Nat.lt_trichotomy a.created_at b.created_at with h | h | h
    · exact Or.inl (Or.inl h)
    · rcases h2 : strLtB b.id a.id with _ | _
      · exact Or.inl (Or.inr ⟨h, rfl⟩)
      · exact Or.inr (Or.inr ⟨h.symm, strLtB_asymm h2⟩)
    · exact Or.inr (Or.inl h)

instance : IsTrans StoredUser rowLe where
  trans a b c hab hbc := by
    unfold rowLe at hab hbc ⊢
    rcases hab with h1 | ⟨e1, le1⟩
    · rcases hbc with h2 | ⟨e2, _⟩
      · exact Or.inl (h1.trans h2)
      · exact Or.inl (e2 ▸ h1)
    · rcases hbc with h2 | ⟨e2, le2⟩
      · exact Or.inl (e1 ▸ h2)
      · exact Or.inr ⟨e1.trans e2, strLtB_notlt_trans le1 le2⟩

theorem rowLt_irrefl (a : StoredUser) : ¬ rowLt a a := by
  unfold rowLt
  intro h
  rcases h with h | ⟨_, h⟩
  · omega
  · rw [strLtB_irrefl] at h
    exact Bool.false_ne_true h

theorem rowLt_asymm {a b : StoredUser} (h : rowLt a b) : ¬ rowLt b a := by
  unfold rowLt at h ⊢
  intro h2
  rcases h with h | ⟨e, hl⟩ <;> rcases h2 with h2 | ⟨e2, hl2⟩
  · omega
  · omega
  · omega
  · rw [strLtB_asymm hl2] at hl
    exact Bool.false_ne_true hl

theorem rowLe_ne_imp_lt {a b : StoredUser} (h : rowLe a b) (hne : a.id ≠ b.id) :
    rowLt a b := by
  unfold rowLe at h
  unfold rowLt
  rcases h with h | ⟨e, hl⟩
  · exact Or.inl h
  · refine Or.inr ⟨e, ?_⟩
    rcases h2 : strLtB a.id b.id with _ | _
    · exact absurd (strLtB_connex h2 hl) hne
    · rfl

/-- The strict `(createdAt, id-string)` order on domain users, used to state
result ordering. -/
def userLt (a b : User) : Prop :=
  a.created_at < b.created_at ∨
    (a.created_at = b.created_at ∧ strLtB a.id.toString b.id.toString = true)

instance : DecidableRel userLt := fun a b => by unfold userLt; infer_instance

/-! ### Pagination token and configuration -/

/-- Modelled from the spec: the version-1 pagination cursor payload
`V1PaginateToken { created_at, id }` of the token codec
(`implementations/postgres/pagination.rs`, not under the visible source). -/
structure V1PaginateToken where
  created_at : Nat
  id : String
deriving DecidableEq, Repr

/-- Modelled from the spec: the versioned pagination token `PaginateToken`.
Per §4.1 the opaque wire string round-trips through the codec, so the token is
carried here in its decoded structured form. -/
inductive PaginateToken where
  | v1 : V1PaginateToken → PaginateToken
deriving DecidableEq, Repr

/-- Modelled from the spec: the configured default page size of the external
configuration collaborator (`CONFIG`, not under the visible source). -/
def defaultPageSize : Nat := 100

/-- Modelled from the spec: the configured maximum page size of the external
configuration collaborator. -/
def paginationMaxSize : Nat := 1000

/-- Modelled from the spec: `CONFIG.page_size_or_pagination_max` — the
caller-requested size clamped to the configured maximum, with the default
applied when unspecified (§4.2 step 1). -/
def pageSizeOrPaginationMax (requested : Option Nat) : Nat :=
  match requested with
  | none => defaultPageSize
  | some k => min k paginationMaxSize

/-! ### The repository operations -/

/-- Source `ListUsersResponse`. -/
structure ListUsersResponse where
  users : List User
  next_page_token : Option PaginateToken
deriving DecidableEq, Repr

/-- Source `CreateOrUpdateUserResponse`. -/
inductive CreateOrUpdateUserResponse where
  | created : User → CreateOrUpdateUserResponse
  | updated : User → CreateOrUpdateUserResponse
deriving DecidableEq, Repr

/-- The WHERE clause of the `list_users` query, one conjunct per SQL line:
soft-delete exclusion, name filter (`$1 OR name ILIKE '%' || $2 || '%'`),
id filter (`$3 OR id = any($4)`), and the keyset predicate
`(created_at > $5 OR $5 IS NULL) OR (created_at = $5 AND id > $6)`. -/
def listPred (filter_name : String) (filter_user_id : Option (List UserId))
    (tok : Option (Nat × String)) (r : StoredUser) : Bool :=
  decide (r.deleted_at = none) &&
    (filter_name.isEmpty || ilike r.name ("%" ++ filter_name ++ "%")) &&
    (filter_user_id.isNone ||
      (filter_user_id.getD []).any (fun u => u.toString == r.id)) &&
    (match tok with
     | none => true
     | some (ts, tid) =>
       decide (ts < r.created_at) ||
         (decide (r.created_at = ts) && strLtB tid r.id))

/-- The rows fetched by the `list_users` query: WHERE, then
`ORDER BY u.created_at, u.id ASC`, then `LIMIT` to the effective page size. -/
def fetchedRows (filter_user_id : Option (List UserId)) (filter_name : Option String)
    (page_token : Option PaginateToken) (page_size : Option Nat)
    (db : List StoredUser) : List StoredUser :=
  let psz := pageSizeOrPaginationMax page_size
  let fname := filter_name.getD ""
  let tok := page_token.map (fun t =>
    match t with
    | PaginateToken.v1 v => (v.created_at, v.id))
  ((db.filter (listPred fname filter_user_id tok)).insertionSort rowLe).take psz

/-- The fail-fast row mapping `.map(User::try_from).collect::<Result<_>>()`. -/
def collectUsers : List UserRow → Except Error (List User)
  | [] => Except.ok []
  | r :: rs =>
    match User.tryFrom r with
    | Except.error e => Except.error e
    | Except.ok u =>
      match collectUsers rs with
      | Except.error e => Except.error e
      | Except.ok us => Except.ok (u :: us)

/-- Source `list_users`: fetch the filtered, ordered, limited rows, map them to
domain users (failing on any unparseable id), and compute the next page token
from the last returned row when the page is non-empty. -/
def list_users (filter_user_id : Option (List UserId)) (filter_name : Option String)
    (page_token : Option PaginateToken) (page_size : Option Nat)
    (db : List StoredUser) : Except Error ListUsersResponse :=
  match collectUsers ((fetchedRows filter_user_id filter_name page_token page_size db).map
      StoredUser.toRow) with
  | Except.error e => Except.error e
  | Except.ok users =>
    Except.ok
      { users := users,
        next_page_token := users.getLast?.map (fun u =>
          PaginateToken.v1 ⟨u.created_at, u.id.toString⟩) }

/-- Source `delete_user`: `UPDATE users SET deleted_at = now(), name =
'Deleted User', email = null WHERE id = $1`; returns `none` exactly when no row
was affected.  The pair is (store after the call, result). -/
def delete_user (id : UserId) (now : Nat) (db : List StoredUser) :
    List StoredUser × Option Unit :=
  let db2 := db.map (fun r =>
    if r.id = id.toString then
      { r with deleted_at := some now, name := "Deleted User", email := none }
    else r)
  let affected := db.countP (fun r => decide (r.id = id.toString))
  (db2, if affected = 0 then none else some ())

/-- Source `create_or_update_user`: `INSERT ... ON CONFLICT (id) DO UPDATE SET
name, email, last_updated_with, user_type, deleted_at = null`, with the
created/updated tag derived from the store's own conflict signal
(`returning (xmax = 0) AS created`).  The `updated_at := some now` in the
conflict branch and the `created_at := now, updated_at := none` defaults in the
insert branch are modelled from the spec (§3/§4.3): they are written by the
schema defaults and the schema's updated-at trigger, which are not under the
visible source.  The pair is (store after the call, result). -/
def create_or_update_user (id : UserId) (name : String) (email : Option String)
    (last_updated_with : UserLastUpdatedWith) (user_type : UserType)
    (now : Nat) (db : List StoredUser) :
    List StoredUser × Except Error CreateOrUpdateUserResponse :=
  let db_last_updated_with := dbFromLuw last_updated_with
  let overwrite := fun (r : StoredUser) =>
    { r with name := name, email := email,
             last_updated_with := db_last_updated_with,
             user_type := dbFromUserType user_type,
             updated_at := some now, deleted_at := none }
  match db.find? (fun r => decide (r.id = id.toString)) with
  | some conflicted =>
    let db2 := db.map (fun r => if r.id = id.toString then overwrite r else r)
    (db2,
      match User.tryFrom (overwrite conflicted).toRow with
      | Except.error e => Except.error e
      | Except.ok u => Except.ok (CreateOrUpdateUserResponse.updated u))
  | none =>
    let newRow : StoredUser :=
      { id := id.toString, name := name, email := email,
        last_updated_with := db_last_updated_with,
        user_type := dbFromUserType user_type,
        created_at := now, updated_at := none, deleted_at := none }
    (db ++ [newRow],
      match User.tryFrom newRow.toRow with
      | Except.error e => Except.error e
      | Except.ok u => Except.ok (CreateOrUpdateUserResponse.created u))

/-! ### Search -/

/-- Source `SearchUser` (management API type). -/
structure SearchUser where
  id : UserId
  name : String
  user_type : UserType
  email : Option String
deriving DecidableEq, Repr

/-- Source `SearchUserResponse`. -/
structure SearchUserResponse where
  users : List SearchUser
deriving DecidableEq, Repr

/-- The sliding windows of three consecutive characters of a list. -/
def windows3 : List Char → List (List Char)
  | a :: b :: c :: rest => [a, b, c] :: windows3 (b :: c :: rest)
  | _ => []

/-- Modelled from the spec: the trigram set of a string as extracted by the
store's similarity extension (lower-cased, padded with two leading and one
trailing blank). -/
def trigrams (s : String) : List (List Char) :=
  (windows3 (' ' :: ' ' :: (lowerStr s).data ++ [' '])).dedup

/-- Modelled from the spec: the similarity distance operator of the store
(the query's binary distance operator, an external collaborator): one minus
the Jaccard similarity of the two trigram sets, so smaller means closer. -/
def trgmDist (a b : String) : ℚ :=
  let ta := trigrams a
  let tb := trigrams b
  let inter := (ta.filter (fun t => tb.contains t)).length
  let union := ta.length + tb.length - inter
  if union = 0 then 0 else 1 - (inter : ℚ) / (union : ℚ)

/-- The scored expression `(name || ' ' || email) <-> $1` of the search query:
SQL string concatenation with a NULL email is NULL, hence a NULL distance. -/
def searchScore (term : String) (r : StoredUser) : Option ℚ :=
  r.email.map (fun e => trgmDist (r.name ++ " " ++ e) term)

/-- Ascending comparison of nullable distances: a NULL distance sorts last
(the store's default NULLS LAST for ascending order, an external collaborator
modelled from the spec). -/
def odistLe : Option ℚ → Option ℚ → Prop
  | some x, some y => x ≤ y
  | some _, none => True
  | none, none => True
  | none, some _ => False

instance : DecidableRel odistLe := fun a b => by
  cases a <;> cases b <;> simp only [odistLe] <;> infer_instance

/-- The `ORDER BY dist ASC` order on scored rows. -/
def distLe (a b : StoredUser × Option ℚ) : Prop := odistLe a.2 b.2

instance : DecidableRel distLe := fun a b => by unfold distLe; infer_instance

instance : IsTotal (StoredUser × Option ℚ) distLe where
  total a b := by
    unfold distLe
    rcases a with ⟨_, _ | x⟩ <;> rcases b with ⟨_, _ | y⟩ <;>
      simp only [odistLe] <;> try trivial
    exact le_total x y

instance : IsTrans (StoredUser × Option ℚ) distLe where
  trans a b c hab hbc := by
    unfold distLe at hab hbc ⊢
    rcases a with ⟨_, _ | x⟩ <;> rcases b with ⟨_, _ | y⟩ <;>
      rcases c with ⟨_, _ | z⟩ <;> simp only [odistLe] at hab hbc ⊢ <;> try trivial
    exact hab.trans hbc

/-- The rows fetched by the search query: every table row scored (no WHERE
clause at all — soft-deleted rows included), ordered by distance ascending,
limited to 10. -/
def searchRows (term : String) (db : List StoredUser) :
    List (StoredUser × Option ℚ) :=
  ((db.map (fun r => (r, searchScore term r))).insertionSort distLe).take 10

/-- The fail-fast mapping of fetched search rows to `SearchUser` values
(`row.id.try_into()?`). -/
def collectSearch : List (StoredUser × Option ℚ) → Except Error (List SearchUser)
  | [] => Except.ok []
  | (r, _) :: rest =>
    match UserId.tryFrom r.id with
    | none => Except.error Error.mappingError
    | some uid =>
      match collectSearch rest with
      | Except.error e => Except.error e
      | Except.ok us =>
        Except.ok ({ id := uid, name := r.name, user_type := userTypeFromDb r.user_type,
                     email := r.email } :: us)

/-- The total row-to-search-result map used to state theorems: agrees with the
fallible mapping of `collectSearch` on every row whose id parses. -/
def toSearchUserD (r : StoredUser) : SearchUser :=
  { id := (UserId.tryFrom r.id).getD ⟨"", ""⟩, name := r.name,
    user_type := userTypeFromDb r.user_type, email := r.email }

/-- Source `search_user`: score, order ascending by distance, take 10, map. -/
def search_user (term : String) (db : List StoredUser) :
    Except Error SearchUserResponse :=
  match collectSearch (searchRows term db) with
  | Except.error e => Except.error e
  | Except.ok us => Except.ok { users := us }

/-! ### Client-side pagination loop -/

/-- The caller loop of the pagination protocol: call `list`, and while a
`nextPageToken` is returned, call again with it; collect the pages.  `fuel`
bounds the number of round trips. -/
def paginate (db : List StoredUser) (K : Nat) :
    Nat → Option PaginateToken → List (List User)
  | 0, _ => []
  | Nat.succ fuel, tok =>
    match list_users none none tok (some K) db with
    | Except.error _ => []
    | Except.ok res =>
      match res.next_page_token with
      | none => [res.users]
      | some t => res.users :: paginate db K fuel (some t)

/-- Splits a list into consecutive chunks of `K` elements (the last chunk may
be shorter).  For `K = 0` it degenerates to singleton chunks so that the
definition terminates; it is only ever used with `0 < K`. -/
def chunksOf (K : Nat) : List α → List (List α)
  | [] => []
  | a :: l => ((a :: l).take K) :: chunksOf K ((a :: l).drop (max K 1))
termination_by l => l.length
decreasing_by
  simp only [List.length_drop, List.length_cons]
  omega

/-! ### Statement-side definitions -/

/-- The reflexive `(createdAt, id-string)` order on domain users. -/
def userLe (a b : User) : Prop :=
  a.created_at < b.created_at ∨
    (a.created_at = b.created_at ∧ strLtB b.id.toString a.id.toString = false)

instance : DecidableRel userLe := fun a b => by unfold userLe; infer_instance

/-- The row predicate of claim C3, written clause by clause from the claim's
own words (amended only in the name clause, where containment is the
case-insensitive SQL LIKE-pattern containment the query actually performs):
not soft-deleted; no name filter or the name ILIKE-matches the filter wrapped
in percent wildcards; no id set or the id is a member of the set; no token or
the row key lies strictly after the token key. -/
def claimPred (filter_user_id : Option (List UserId)) (filter_name : Option String)
    (tok : Option PaginateToken) (r : StoredUser) : Bool :=
  decide (r.deleted_at = none) &&
    (match filter_name with
     | none => true
     | some f => ilike r.name ("%" ++ f ++ "%")) &&
    (match filter_user_id with
     | none => true
     | some ids => ids.any (fun u => u.toString == r.id)) &&
    (match tok with
     | none => true
     | some (PaginateToken.v1 t) =>
       decide (t.created_at < r.created_at) ||
         (decide (r.created_at = t.created_at) && strLtB t.id r.id))

/-- Restriction of a row list to the rows strictly after the pagination
token's key (all rows when there is no token). -/
def tokFilter : Option PaginateToken → List StoredUser → List StoredUser
  | none, l => l
  | some (PaginateToken.v1 t), l =>
    l.filter (fun r =>
      decide (t.created_at < r.created_at) ||
        (decide (r.created_at = t.created_at) && strLtB t.id r.id))

/-- The next-page token computed from the last row of a fetched page. -/
def nextTokOf (l : List StoredUser) : Option PaginateToken :=
  l.getLast?.map (fun r => PaginateToken.v1 ⟨r.created_at, r.id⟩)

/-! ### Concrete fixtures (used by the closed witness statements) -/

def uidA : UserId := ⟨"oidc", "alpha"⟩

def uidB : UserId := ⟨"oidc", "beta"⟩

def uidC : UserId := ⟨"oidc", "gamma"⟩

def uidD : UserId := ⟨"oidc", "delta"⟩

def rowA : StoredUser :=
  { id := "oidc~alpha", name := "Alpha User", email := some "alpha@example.com",
    last_updated_with := DbUserLastUpdatedWith.createEndpoint,
    user_type := DbUserType.human, created_at := 1, updated_at := none,
    deleted_at := none }

def rowB : StoredUser :=
  { id := "oidc~beta", name := "Beta User", email := none,
    last_updated_with := DbUserLastUpdatedWith.configCallCreation,
    user_type := DbUserType.application, created_at := 2, updated_at := none,
    deleted_at := none }

def rowC : StoredUser :=
  { id := "oidc~gamma", name := "Gamma User", email := some "gamma@example.com",
    last_updated_with := DbUserLastUpdatedWith.updateEndpoint,
    user_type := DbUserType.human, created_at := 3, updated_at := some 3,
    deleted_at := none }

def rowDel : StoredUser :=
  { id := "oidc~delta", name := "Deleted User", email := none,
    last_updated_with := DbUserLastUpdatedWith.createEndpoint,
    user_type := DbUserType.human, created_at := 4, updated_at := some 5,
    deleted_at := some 5 }

def rowBad : StoredUser :=
  { id := "corrupt", name := "Bad Row", email := none,
    last_updated_with := DbUserLastUpdatedWith.createEndpoint,
    user_type := DbUserType.human, created_at := 6, updated_at := none,
    deleted_at := none }

/-! ### Helper lemmas: identifier round-trip and row mapping -/

theorem splitAtTilde_append {l : List Char} {i sub : List Char}
    (h : splitAtTilde l = some (i, sub)) : l = i ++ '~' :: sub := by
  induction l generalizing i sub with
  | nil => simp [splitAtTilde] at h
  | cons c cs ih =>
    by_cases hc : c = '~'
    · subst hc
      simp [splitAtTilde] at h
      rw [h.1, h.2]
      rfl
    · simp only [splitAtTilde, if_neg hc, Option.map_eq_some'] at h
      obtain ⟨⟨i2, sub2⟩, h2, h3⟩ := h
      rw [Prod.mk.injEq] at h3
      obtain ⟨rfl, rfl⟩ := h3
      simpa using ih h2

theorem UserId.tryFrom_toString {s : String} {u : UserId}
    (h : UserId.tryFrom s = some u) : u.toString = s := by
  unfold UserId.tryFrom at h
  cases hsp : splitAtTilde s.data with
  | none => rw [hsp] at h; simp at h
  | some p =>
    obtain ⟨i, sub⟩ := p
    rw [hsp] at h
    dsimp only at h
    by_cases hemp : (i.isEmpty || sub.isEmpty) = true
    · rw [if_pos hemp] at h; simp at h
    · rw [if_neg hemp] at h
      cases h
      have hdata := splitAtTilde_append hsp
      unfold UserId.toString
      cases s
      exact congrArg String.mk (by simpa using hdata.symm)

theorem User.tryFrom_toRow_ok {r : StoredUser}
    (h : (UserId.tryFrom r.id).isSome) :
    User.tryFrom r.toRow = Except.ok (toUserD r) := by
  unfold User.tryFrom toUserD StoredUser.toRow
  cases hp : UserId.tryFrom r.id with
  | none => rw [hp] at h; simp at h
  | some uid => simp [hp]

theorem toUserD_created_at (r : StoredUser) :
    (toUserD r).created_at = r.created_at := rfl

theorem toUserD_id_toString {r : StoredUser}
    (h : (UserId.tryFrom r.id).isSome) : (toUserD r).id.toString = r.id := by
  unfold toUserD
  cases hp : UserId.tryFrom r.id with
  | none => rw [hp] at h; simp at h
  | some uid => simpa using UserId.tryFrom_toString hp

theorem collectUsers_ok {l : List StoredUser}
    (h : ∀ r ∈ l, (UserId.tryFrom r.id).isSome) :
    collectUsers (l.map StoredUser.toRow) = Except.ok (l.map toUserD) := by
  induction l with
  | nil => rfl
  | cons r rs ih =>
    have hr := h r (List.mem_cons_self r rs)
    have hrs := fun x hx => h x (List.mem_cons_of_mem r hx)
    simp only [List.map_cons, collectUsers, User.tryFrom_toRow_ok hr, ih hrs]

theorem collectUsers_error {l : List StoredUser}
    (h : ∃ r ∈ l, UserId.tryFrom r.id = none) :
    collectUsers (l.map StoredUser.toRow) = Except.error Error.mappingError := by
  induction l with
  | nil => simp at h
  | cons r rs ih =>
    simp only [List.map_cons, collectUsers]
    cases hp : UserId.tryFrom r.id with
    | none =>
      have : User.tryFrom r.toRow = Except.error Error.mappingError := by
        unfold User.tryFrom StoredUser.toRow
        simp [hp]
      rw [this]
    | some uid =>
      have : User.tryFrom r.toRow = Except.ok (toUserD r) :=
        User.tryFrom_toRow_ok (by rw [hp]; rfl)
      rw [this]
      obtain ⟨x, hx, hxp⟩ := h
      rcases List.mem_cons.mp hx with rfl | hx2
      · rw [hp] at hxp; cases hxp
      · rw [ih ⟨x, hx2, hxp⟩]

/-! ### Shared operation-level lemmas -/

theorem delete_result_some_iff (id : UserId) (n : Nat) (l : List StoredUser) :
    (delete_user id n l).2 = some () ↔ ∃ x ∈ l, x.id = id.toString := by
  unfold delete_user
  dsimp only
  by_cases h : l.countP (fun x => decide (x.id = id.toString)) = 0
  · rw [if_pos h]
    simp only [List.countP_eq_zero, decide_eq_true_eq] at h
    constructor
    · intro hx; cases hx
    · intro ⟨x, hx, hxid⟩; exact absurd hxid (h x hx)
  · rw [if_neg h]
    have h2 := List.countP_pos_iff (p := fun x => decide (x.id = id.toString)) (l := l)
    simp only [decide_eq_true_eq] at h2
    simp only [Nat.pos_iff_ne_zero] at h2
    exact ⟨fun _ => h2.mp h, fun _ => rfl⟩

theorem mem_fetchedRows_mem_db {filter_user_id : Option (List UserId)}
    {filter_name : Option String} {page_token : Option PaginateToken}
    {page_size : Option Nat} {db : List StoredUser} {r : StoredUser}
    (h : r ∈ fetchedRows filter_user_id filter_name page_token page_size db) :
    r ∈ db := by
  unfold fetchedRows at h
  have h2 := (List.mem_insertionSort rowLe).mp (List.take_subset _ _ h)
  exact List.mem_of_mem_filter h2

theorem list_users_ok (filter_user_id : Option (List UserId))
    (filter_name : Option String) (page_token : Option PaginateToken)
    (page_size : Option Nat) (db : List StoredUser)
    (hparse : ∀ r ∈ db, (UserId.tryFrom r.id).isSome) :
    list_users filter_user_id filter_name page_token page_size db =
      Except.ok
        { users := (fetchedRows filter_user_id filter_name page_token
            page_size db).map toUserD,
          next_page_token := ((fetchedRows filter_user_id filter_name page_token
            page_size db).map toUserD).getLast?.map (fun u =>
              PaginateToken.v1 ⟨u.created_at, u.id.toString⟩) } := by
  unfold list_users
  rw [collectUsers_ok (fun r hr => hparse r (mem_fetchedRows_mem_db hr))]

theorem listPred_nofilters (tok : Option (Nat × String)) (r : StoredUser) :
    listPred "" none tok r =
      (decide (r.deleted_at = none) &&
        (match tok with
         | none => true
         | some (ts, tid) =>
           decide (ts < r.created_at) ||
             (decide (r.created_at = ts) && strLtB tid r.id))) := by
  unfold listPred
  have hemp : "".isEmpty = true := rfl
  simp [hemp]

theorem fetchedRows_nofilters (page_size : Option Nat) (db : List StoredUser) :
    fetchedRows none none none page_size db =
      ((db.filter (fun x => decide (x.deleted_at = none))).insertionSort
        rowLe).take (pageSizeOrPaginationMax page_size) := by
  have h : ∀ x ∈ db, listPred "" none none x = decide (x.deleted_at = none) := by
    intro x _
    rw [listPred_nofilters none x]
    simp
  unfold fetchedRows
  simp only [Option.getD_none, Option.map_none']
  rw [List.filter_congr h]

/-! ### Claims C1, C4, C6, C7 -/

/-- Claim C1: for every call to createOrUpdate with an id, if no row with that
id existed before the call the result is tagged Created; if a row existed
(active or soft-deleted) the result is tagged Updated; in the resurrection
case deletedAt is cleared and the tag is Updated, not Created; in both cases
the outcome carries the resulting User (the row now in the store). -/
theorem claim1_create_or_update_tag (id : UserId) (name : String)
    (email : Option String) (luw : UserLastUpdatedWith) (ut : UserType)
    (now : Nat) (db : List StoredUser) (hwf : id.wf) :
    ((∀ r ∈ db, r.id ≠ id.toString) →
      ∃ r', r' ∈ (create_or_update_user id name email luw ut now db).1 ∧
        r'.id = id.toString ∧ r'.deleted_at = none ∧
        (create_or_update_user id name email luw ut now db).2 =
          Except.ok (CreateOrUpdateUserResponse.created (toUserD r'))) ∧
    ((∃ r ∈ db, r.id = id.toString) →
      ∃ r', r' ∈ (create_or_update_user id name email luw ut now db).1 ∧
        r'.id = id.toString ∧ r'.deleted_at = none ∧
        (create_or_update_user id name email luw ut now db).2 =
          Except.ok (CreateOrUpdateUserResponse.updated (toUserD r'))) := by
  have hid : (UserId.tryFrom id.toString).isSome := by rw [hwf]; rfl
  unfold create_or_update_user
  cases hfind : db.find? (fun r => decide (r.id = id.toString)) with
  | none =>
    dsimp only
    constructor
    · intro _
      refine ⟨_, List.mem_append_right db (List.mem_singleton_self _), rfl, rfl, ?_⟩
      rw [User.tryFrom_toRow_ok hid]
    · intro ⟨r, hr, hrid⟩
      have := List.find?_eq_none.mp hfind r hr
      simp [hrid] at this
  | some r0 =>
    dsimp only
    constructor
    · intro hall
      have hr0 : r0 ∈ db := List.mem_of_find?_eq_some hfind
      have := List.find?_some hfind
      simp only [decide_eq_true_eq] at this
      exact absurd this (hall r0 hr0)
    · intro _
      have hp : r0.id = id.toString := by
        have := List.find?_some hfind
        simpa using this
      refine ⟨_, List.mem_map_of_mem _ (List.mem_of_find?_eq_some hfind), ?_, ?_, ?_⟩
      · rw [if_pos hp]; exact hp
      · rw [if_pos hp]
      · rw [if_pos hp]
        rw [User.tryFrom_toRow_ok (r := _) (by show (UserId.tryFrom r0.id).isSome; rw [hp]; exact hid)]

/-- Witness for C1 at a concrete input: resurrecting the soft-deleted fixture
row is tagged Updated with deletedAt cleared. -/
theorem claim1_witness :
    UserId.wf uidD ∧ (∃ r ∈ [rowDel], r.id = uidD.toString) ∧
    (∃ r', r' ∈ (create_or_update_user uidD "Delta" none
        UserLastUpdatedWith.updateEndpoint UserType.human 9 [rowDel]).1 ∧
      r'.id = uidD.toString ∧ r'.deleted_at = none ∧
      (create_or_update_user uidD "Delta" none
        UserLastUpdatedWith.updateEndpoint UserType.human 9 [rowDel]).2 =
        Except.ok (CreateOrUpdateUserResponse.updated (toUserD r'))) :=
  ⟨by decide, by decide,
    (claim1_create_or_update_tag uidD "Delta" none
      UserLastUpdatedWith.updateEndpoint UserType.human 9 [rowDel]
      (by decide)).2 (by decide)⟩

/-- Claim C4: delete returns the present sentinel iff a row with the id exists
(soft-deleted or not), the absent sentinel iff no such row was ever created,
and deleting twice in a row on an existing id returns the present sentinel
both times. -/
theorem claim4_delete_present_absent (id : UserId) (now now2 : Nat)
    (db : List StoredUser) :
    ((delete_user id now db).2 = some () ↔ ∃ r ∈ db, r.id = id.toString) ∧
    ((delete_user id now db).2 = none ↔ ∀ r ∈ db, r.id ≠ id.toString) ∧
    ((∃ r ∈ db, r.id = id.toString) →
      (delete_user id now db).2 = some () ∧
      (delete_user id now2 (delete_user id now db).1).2 = some ()) := by
  have hkey : ∀ (n : Nat) (l : List StoredUser),
      (delete_user id n l).2 = some () ↔ ∃ r ∈ l, r.id = id.toString :=
    fun n l => delete_result_some_iff id n l
  refine ⟨hkey now db, ?_, ?_⟩
  · unfold delete_user
    dsimp only
    by_cases h : db.countP (fun r => decide (r.id = id.toString)) = 0
    · rw [if_pos h]
      simp only [List.countP_eq_zero, decide_eq_true_eq] at h
      exact ⟨fun _ => h, fun _ => rfl⟩
    · rw [if_neg h]
      constructor
      · intro hx; cases hx
      · intro hall
        rw [List.countP_eq_zero.mpr (by simpa using hall)] at h
        exact absurd rfl h
  · intro ⟨r, hr, hrid⟩
    refine ⟨(hkey now db).mpr ⟨r, hr, hrid⟩, (hkey now2 _).mpr ?_⟩
    refine ⟨{ r with deleted_at := some now, name := "Deleted User", email := none }, ?_, hrid⟩
    show _ ∈ (delete_user id now db).1
    unfold delete_user
    dsimp only
    exact List.mem_map.mpr ⟨r, hr, by rw [if_pos hrid]⟩

/-- Witness for C4 at a concrete input: deleting an existing fixture row twice
returns the present sentinel both times. -/
theorem claim4_witness :
    (∃ r ∈ [rowA, rowB], r.id = uidA.toString) ∧
    ((delete_user uidA 10 [rowA, rowB]).2 = some () ∧
      (delete_user uidA 11 (delete_user uidA 10 [rowA, rowB]).1).2 = some ()) :=
  ⟨by decide, (claim4_delete_present_absent uidA 10 11 [rowA, rowB]).2.2 (by decide)⟩

/-- Claim C6: when a row with the given id exists (active or soft-deleted),
createOrUpdate overwrites name, email, lastUpdatedWith and userType, sets
updatedAt to the current time, and clears deletedAt (the updatedAt write is
the schema trigger, modelled from the spec). -/
theorem claim6_create_or_update_overwrites (id : UserId) (name : String)
    (email : Option String) (luw : UserLastUpdatedWith) (ut : UserType)
    (now : Nat) (db : List StoredUser) (r : StoredUser) (hr : r ∈ db)
    (hid : r.id = id.toString) :
    ∃ r', r' ∈ (create_or_update_user id name email luw ut now db).1 ∧
      r'.id = r.id ∧ r'.created_at = r.created_at ∧
      r'.name = name ∧ r'.email = email ∧
      r'.last_updated_with = dbFromLuw luw ∧
      r'.user_type = dbFromUserType ut ∧
      r'.updated_at = some now ∧ r'.deleted_at = none := by
  unfold create_or_update_user
  cases hfind : db.find? (fun r => decide (r.id = id.toString)) with
  | none =>
    have := List.find?_eq_none.mp hfind r hr
    simp [hid] at this
  | some r0 =>
    dsimp only
    refine ⟨_, List.mem_map_of_mem _ hr, ?_⟩
    rw [if_pos hid]
    exact ⟨rfl, rfl, rfl, rfl, rfl, rfl, rfl, rfl⟩

/-- Witness for C6 at a concrete input: upserting over the soft-deleted
fixture row overwrites its mutable fields and clears the deletion marker. -/
theorem claim6_witness :
    rowDel ∈ [rowDel] ∧ rowDel.id = uidD.toString ∧
    (∃ r', r' ∈ (create_or_update_user uidD "Delta" (some "d@example.com")
        UserLastUpdatedWith.updateEndpoint UserType.application 9 [rowDel]).1 ∧
      r'.id = rowDel.id ∧ r'.created_at = rowDel.created_at ∧
      r'.name = "Delta" ∧ r'.email = some "d@example.com" ∧
      r'.last_updated_with = dbFromLuw UserLastUpdatedWith.updateEndpoint ∧
      r'.user_type = dbFromUserType UserType.application ∧
      r'.updated_at = some 9 ∧ r'.deleted_at = none) :=
  ⟨by decide, by decide,
    claim6_create_or_update_overwrites uidD "Delta" (some "d@example.com")
      UserLastUpdatedWith.updateEndpoint UserType.application 9 [rowDel] rowDel
      (by decide) (by decide)⟩

/-- Claim C7: delete on a matching row sets deletedAt to the current time, the
name to the fixed sentinel string and the email to null, and leaves every
other field — in particular id and createdAt — unchanged; non-matching rows
are untouched. -/
theorem claim7_delete_scrubs (id : UserId) (now : Nat) (db : List StoredUser)
    (r : StoredUser) (hr : r ∈ db) :
    (r.id = id.toString →
      ∃ r', r' ∈ (delete_user id now db).1 ∧
        r'.id = r.id ∧ r'.created_at = r.created_at ∧
        r'.updated_at = r.updated_at ∧ r'.user_type = r.user_type ∧
        r'.last_updated_with = r.last_updated_with ∧
        r'.deleted_at = some now ∧ r'.name = "Deleted User" ∧
        r'.email = none) ∧
    (r.id ≠ id.toString → r ∈ (delete_user id now db).1) := by
  unfold delete_user
  dsimp only
  constructor
  · intro hid
    refine ⟨_, List.mem_map_of_mem _ hr, ?_⟩
    rw [if_pos hid]
    exact ⟨rfl, rfl, rfl, rfl, rfl, rfl, rfl, rfl⟩
  · intro hid
    exact List.mem_map.mpr ⟨r, hr, by simp [hid]⟩

/-- Witness for C7 at a concrete input: deleting the first fixture row scrubs
name and email, stamps deletedAt, and keeps id, createdAt and the rest. -/
theorem claim7_witness :
    rowA ∈ [rowA, rowB] ∧ rowA.id = uidA.toString ∧
    (∃ r', r' ∈ (delete_user uidA 10 [rowA, rowB]).1 ∧
      r'.id = rowA.id ∧ r'.created_at = rowA.created_at ∧
      r'.updated_at = rowA.updated_at ∧ r'.user_type = rowA.user_type ∧
      r'.last_updated_with = rowA.last_updated_with ∧
      r'.deleted_at = some 10 ∧ r'.name = "Deleted User" ∧ r'.email = none) :=
  ⟨by decide, by decide,
    (claim7_delete_scrubs uidA 10 [rowA, rowB] rowA (by decide)).1 (by decide)⟩

/-! ### Claims C9, C8, C10 -/

/-- Claim C9: if any stored id among the fetched rows of a list call fails to
parse back into the structured identifier, the whole operation fails with the
mapping error and no partial page is returned. -/
theorem claim9_list_mapping_error (filter_user_id : Option (List UserId))
    (filter_name : Option String) (page_token : Option PaginateToken)
    (page_size : Option Nat) (db : List StoredUser)
    (h : ∃ r ∈ fetchedRows filter_user_id filter_name page_token page_size db,
      UserId.tryFrom r.id = none) :
    list_users filter_user_id filter_name page_token page_size db =
      Except.error Error.mappingError := by
  unfold list_users
  rw [collectUsers_error h]

/-- Witness for C9 at a concrete input: a store containing a row whose id has
no issuer separator makes list fail with the mapping error. -/
theorem claim9_witness :
    (∃ r ∈ fetchedRows none none none (some 10) [rowBad],
      UserId.tryFrom r.id = none) ∧
    list_users none none none (some 10) [rowBad] =
      Except.error Error.mappingError :=
  ⟨by decide, claim9_list_mapping_error none none none (some 10) [rowBad] (by decide)⟩

theorem mem_searchRows_of_mem {term : String} {db : List StoredUser}
    {p : StoredUser × Option ℚ} (hp : p ∈ searchRows term db) :
    ∃ r ∈ db, p = (r, searchScore term r) := by
  unfold searchRows at hp
  have hp2 := List.mem_insertionSort distLe |>.mp (List.take_subset _ _ hp)
  obtain ⟨r, hr, hpr⟩ := List.mem_map.mp hp2
  exact ⟨r, hr, hpr.symm⟩

theorem collectSearch_ok {l : List (StoredUser × Option ℚ)}
    (h : ∀ p ∈ l, (UserId.tryFrom p.1.id).isSome) :
    collectSearch l = Except.ok (l.map (fun p => toSearchUserD p.1)) := by
  induction l with
  | nil => rfl
  | cons p ps ih =>
    obtain ⟨r, d⟩ := p
    have hr := h (r, d) (List.mem_cons_self _ _)
    simp only at hr
    simp only [collectSearch, List.map_cons]
    cases hp : UserId.tryFrom r.id with
    | none => rw [hp] at hr; simp at hr
    | some uid =>
      rw [ih (fun x hx => h x (List.mem_cons_of_mem _ hx))]
      simp [toSearchUserD, hp]

/-- Claim C8: search orders results ascending by the similarity distance of
the concatenated name and email against the term, returns at most 10 results,
applies no other filter — in particular soft-deleted rows are not excluded and
(whenever the store is small enough for them to fit) appear in the results. -/
theorem claim8_search_order_limit (term : String) (db : List StoredUser)
    (hparse : ∀ r ∈ db, (UserId.tryFrom r.id).isSome) :
    search_user term db =
      Except.ok { users := (searchRows term db).map (fun p => toSearchUserD p.1) } ∧
    (searchRows term db).length ≤ 10 ∧
    List.Pairwise distLe (searchRows term db) ∧
    (∀ p ∈ searchRows term db, p.2 = searchScore term p.1) ∧
    (db.length ≤ 10 → ∀ r ∈ db, (r, searchScore term r) ∈ searchRows term db) := by
  have hmem : ∀ p ∈ searchRows term db, (UserId.tryFrom p.1.id).isSome := by
    intro p hp
    obtain ⟨r, hr, rfl⟩ := mem_searchRows_of_mem hp
    exact hparse r hr
  refine ⟨?_, ?_, ?_, ?_, ?_⟩
  · unfold search_user
    rw [collectSearch_ok hmem]
  · unfold searchRows
    rw [List.length_take]
    exact min_le_left _ _
  · have hs : List.Sorted distLe
        ((db.map (fun r => (r, searchScore term r))).insertionSort distLe) :=
      List.sorted_insertionSort distLe _
    exact List.Pairwise.sublist (List.take_sublist _ _) hs
  · intro p hp
    obtain ⟨r, hr, rfl⟩ := mem_searchRows_of_mem hp
    rfl
  · intro hlen r hr
    unfold searchRows
    have hfull : ((db.map (fun r => (r, searchScore term r))).insertionSort
        distLe).length ≤ 10 := by
      rw [List.length_insertionSort, List.length_map]
      exact hlen
    rw [List.take_of_length_le hfull]
    rw [List.mem_insertionSort]
    exact List.mem_map_of_mem _ hr

/-- Witness for C8 at a concrete input: with a store of two rows, one of them
soft-deleted, the soft-deleted row appears among the search rows. -/
theorem claim8_witness :
    (∀ r ∈ [rowA, rowDel], (UserId.tryFrom r.id).isSome) ∧
    ([rowA, rowDel].length ≤ 10 ∧
      (rowDel, searchScore "User" rowDel) ∈ searchRows "User" [rowA, rowDel]) :=
  ⟨by decide,
    ⟨by decide,
      (claim8_search_order_limit "User" [rowA, rowDel] (by decide)).2.2.2.2
        (by decide) rowDel (by decide)⟩⟩

theorem odistLe_none_right {x : Option ℚ} (h : odistLe none x) : x = none := by
  cases x with
  | none => rfl
  | some q => exact absurd h (by simp [odistLe])

/-- Claim C10: a stored row with a null email has a null concatenation and
hence a null similarity distance; it is still eligible to appear in search
results, but under the ascending order it sorts after every row with a
non-null email (NULLS LAST). -/
theorem claim10_search_null_email (term : String) (db : List StoredUser) :
    (∀ r ∈ db, r.email = none → searchScore term r = none) ∧
    (∀ p ∈ searchRows term db, (p.2 = none ↔ p.1.email = none)) ∧
    List.Pairwise (fun a b : StoredUser × Option ℚ => a.2 = none → b.2 = none)
      (searchRows term db) ∧
    (db.length ≤ 10 → ∀ r ∈ db, r.email = none →
      (r, (none : Option ℚ)) ∈ searchRows term db) := by
  have hscore : ∀ (r : StoredUser), (searchScore term r = none ↔ r.email = none) := by
    intro r
    unfold searchScore
    cases r.email <;> simp
  refine ⟨?_, ?_, ?_, ?_⟩
  · intro r _ h
    rw [hscore r]
    exact h
  · intro p hp
    obtain ⟨r, hr, rfl⟩ := mem_searchRows_of_mem hp
    exact hscore r
  · have hs : List.Sorted distLe
        ((db.map (fun r => (r, searchScore term r))).insertionSort distLe) :=
      List.sorted_insertionSort distLe _
    have hp : List.Pairwise distLe (searchRows term db) :=
      List.Pairwise.sublist (List.take_sublist _ _) hs
    refine hp.imp ?_
    intro a b hab ha
    rw [show distLe a b = odistLe a.2 b.2 from rfl, ha] at hab
    exact odistLe_none_right hab
  · intro hlen r hr hemail
    have hnone : searchScore term r = none := (hscore r).mpr hemail
    unfold searchRows
    have hfull : ((db.map (fun r => (r, searchScore term r))).insertionSort
        distLe).length ≤ 10 := by
      rw [List.length_insertionSort, List.length_map]
      exact hlen
    rw [List.take_of_length_le hfull]
    rw [List.mem_insertionSort]
    exact List.mem_map.mpr ⟨r, hr, by rw [hnone]⟩

/-- Witness for C10 at a concrete input: the null-email row of a two-row store
carries a null distance and still appears among the search rows. -/
theorem claim10_witness :
    ([rowA, rowB].length ≤ 10 ∧ rowB ∈ [rowA, rowB] ∧ rowB.email = none) ∧
    (rowB, (none : Option ℚ)) ∈ searchRows "User" [rowA, rowB] :=
  ⟨by decide,
    (claim10_search_null_email "User" [rowA, rowB]).2.2.2
      (by decide) rowB (by decide) (by decide)⟩

/-! ### Claim C3 -/

theorem likeStar_of_self {f : List Char → Bool} {s : List Char}
    (h : f s = true) : likeStar f s = true := by
  cases s with
  | nil => exact h
  | cons c s2 => simp [likeStar, h]

theorem likeMatch_one_percent (s : List Char) : likeMatch ['%'] s = true := by
  induction s with
  | nil => rfl
  | cons c s ih =>
    show likeStar (fun s2 => likeMatch [] s2) (c :: s) = true
    have hs : likeStar (fun s2 => likeMatch [] s2) s = true := ih
    simp [likeStar, hs]

theorem likeMatch_two_percents (s : List Char) : likeMatch ['%', '%'] s = true := by
  show likeStar (fun s2 => likeMatch ['%'] s2) s = true
  exact likeStar_of_self (likeMatch_one_percent s)

theorem ilike_empty_filter (s : String) : ilike s "%%" = true := by
  show likeMatch (lowerStr "%%").data (lowerStr s).data = true
  have hpat : (lowerStr "%%").data = ['%', '%'] := rfl
  rw [hpat]
  exact likeMatch_two_percents _

/-- The WHERE clause built by the source and the clause-by-clause predicate of
claim C3 agree on every row. -/
theorem claimPred_eq_listPred (filter_user_id : Option (List UserId))
    (filter_name : Option String) (tok : Option PaginateToken) (r : StoredUser) :
    claimPred filter_user_id filter_name tok r =
      listPred (filter_name.getD "") filter_user_id
        (tok.map (fun t =>
          match t with
          | PaginateToken.v1 v => (v.created_at, v.id))) r := by
  unfold claimPred listPred
  have hB : (match filter_name with
      | none => true
      | some f => ilike r.name ("%" ++ f ++ "%")) =
      ((filter_name.getD "").isEmpty ||
        ilike r.name ("%" ++ filter_name.getD "" ++ "%")) := by
    cases filter_name with
    | none => rfl
    | some f =>
      by_cases hf : f = ""
      · subst hf
        simp [ilike_empty_filter r.name]
      · have hne : f.isEmpty = false := by
          rcases he : f.isEmpty with _ | _
          · rfl
          · exact absurd (String.isEmpty_iff f |>.mp he) hf
        simp [hne]
  have hC : (match filter_user_id with
      | none => true
      | some ids => ids.any (fun u => u.toString == r.id)) =
      (filter_user_id.isNone ||
        (filter_user_id.getD []).any (fun u => u.toString == r.id)) := by
    cases filter_user_id with
    | none => rfl
    | some ids => simp
  have hD : (match tok with
      | none => true
      | some (PaginateToken.v1 t) =>
        decide (t.created_at < r.created_at) ||
          (decide (r.created_at = t.created_at) && strLtB t.id r.id)) =
      (match tok.map (fun t =>
          match t with
          | PaginateToken.v1 v => (v.created_at, v.id)) with
       | none => true
       | some (ts, tid) =>
         decide (ts < r.created_at) ||
           (decide (r.created_at = ts) && strLtB tid r.id)) := by
    cases tok with
    | none => rfl
    | some t => cases t; rfl
  rw [hB, hC, hD]

theorem userLe_of_rowLe {a b : StoredUser}
    (ha : (UserId.tryFrom a.id).isSome) (hb : (UserId.tryFrom b.id).isSome)
    (h : rowLe a b) : userLe (toUserD a) (toUserD b) := by
  unfold rowLe at h
  unfold userLe
  rw [toUserD_id_toString ha, toUserD_id_toString hb]
  exact h

/-- Claim C3 (amended): a list call returns exactly the first
effective-page-size rows, in `(createdAt, id)` ascending order, of the stored
rows satisfying: not soft-deleted, AND (no name filter or the name matches the
filter as a case-insensitive LIKE pattern wrapped in percent wildcards), AND
(no id set or the id is in the set), AND (no token or the row key is strictly
after the token key); the returned users are ordered by `(createdAt, id)`. -/
theorem claim3_list_where_clause (filter_user_id : Option (List UserId))
    (filter_name : Option String) (page_token : Option PaginateToken)
    (page_size : Option Nat) (db : List StoredUser)
    (hparse : ∀ r ∈ db, (UserId.tryFrom r.id).isSome) :
    ∃ res, list_users filter_user_id filter_name page_token page_size db =
        Except.ok res ∧
      res.users =
        (((db.filter (claimPred filter_user_id filter_name page_token)).insertionSort
            rowLe).take (pageSizeOrPaginationMax page_size)).map toUserD ∧
      res.users.Pairwise userLe := by
  have hfetch : fetchedRows filter_user_id filter_name page_token page_size db =
      ((db.filter (claimPred filter_user_id filter_name page_token)).insertionSort
        rowLe).take (pageSizeOrPaginationMax page_size) := by
    unfold fetchedRows
    dsimp only
    rw [List.filter_congr (fun r _ =>
      (claimPred_eq_listPred filter_user_id filter_name page_token r).symm)]
  have hparse2 : ∀ r ∈ fetchedRows filter_user_id filter_name page_token
      page_size db, (UserId.tryFrom r.id).isSome :=
    fun r hr => hparse r (mem_fetchedRows_mem_db hr)
  have hok : list_users filter_user_id filter_name page_token page_size db =
      Except.ok
        { users := (fetchedRows filter_user_id filter_name page_token
            page_size db).map toUserD,
          next_page_token := ((fetchedRows filter_user_id filter_name page_token
            page_size db).map toUserD).getLast?.map (fun u =>
              PaginateToken.v1 ⟨u.created_at, u.id.toString⟩) } := by
    unfold list_users
    rw [collectUsers_ok hparse2]
  refine ⟨_, hok, ?_, ?_⟩
  · dsimp only
    rw [hfetch]
  · dsimp only
    have hsorted : (fetchedRows filter_user_id filter_name page_token
        page_size db).Pairwise rowLe := by
      unfold fetchedRows
      exact List.Pairwise.sublist (List.take_sublist _ _)
        (List.sorted_insertionSort rowLe _)
    refine List.pairwise_map.mpr (hsorted.imp_of_mem ?_)
    intro a b hma hmb hab
    exact userLe_of_rowLe (hparse a (mem_fetchedRows_mem_db hma))
      (hparse b (mem_fetchedRows_mem_db hmb)) hab

/-- Witness for C3 (amended) at a concrete input: a name filter and a token
select exactly the matching not-soft-deleted rows after the token key. -/
theorem claim3_witness :
    (∀ r ∈ [rowA, rowB, rowC, rowDel], (UserId.tryFrom r.id).isSome) ∧
    (∃ res, list_users none (some "user") (some (PaginateToken.v1 ⟨1, "oidc~alpha"⟩))
        (some 10) [rowA, rowB, rowC, rowDel] = Except.ok res ∧
      res.users =
        ((([rowA, rowB, rowC, rowDel].filter
            (claimPred none (some "user")
              (some (PaginateToken.v1 ⟨1, "oidc~alpha"⟩)))).insertionSort
            rowLe).take (pageSizeOrPaginationMax (some 10))).map toUserD ∧
      res.users.Pairwise userLe) :=
  ⟨by decide,
    claim3_list_where_clause none (some "user")
      (some (PaginateToken.v1 ⟨1, "oidc~alpha"⟩)) (some 10)
      [rowA, rowB, rowC, rowDel] (by decide)⟩

/-- Counterexample to C3 as stated: with the name filter `%`, the row named
`Alpha User` is returned even though its name does not case-insensitively
contain the string `%` — the name filter is LIKE-pattern matching, not literal
substring containment. -/
theorem claim3_counterexample :
    list_users none (some "%") none (some 10) [rowA] =
      Except.ok { users := [toUserD rowA],
                  next_page_token := some (PaginateToken.v1 ⟨1, "oidc~alpha"⟩) } ∧
    containsCI rowA.name "%" = false := by decide

/-! ### Claim C5 -/

/-- Counterexample to C5 as stated: deleting a user that is present in the
store but already soft-deleted succeeds with the present sentinel, yet the
list count does not decrease by one (it is unchanged). -/
theorem claim5_counterexample :
    (delete_user uidD 9 [rowA, rowDel]).2 = some () ∧
    (list_users none none none none [rowA, rowDel]).map
      (fun res => res.users.length) = Except.ok 1 ∧
    (list_users none none none none
      (delete_user uidD 9 [rowA, rowDel]).1).map
      (fun res => res.users.length) = Except.ok 1 := by decide

/-- Claim C5 (amended): for every user present in the store that is not
already soft-deleted, when the active rows fit within the effective page
size, a successful delete removes exactly that user from list: the user no
longer appears and the list count decreases by exactly one. -/
theorem claim5_delete_hides_from_list (id : UserId) (now : Nat)
    (page_size : Option Nat) (db : List StoredUser) (r : StoredUser)
    (hnd : (db.map StoredUser.id).Nodup)
    (hparse : ∀ x ∈ db, (UserId.tryFrom x.id).isSome)
    (hr : r ∈ db) (hrid : r.id = id.toString) (hact : r.deleted_at = none)
    (hcount : (db.filter (fun x => decide (x.deleted_at = none))).length ≤
      pageSizeOrPaginationMax page_size) :
    (delete_user id now db).2 = some () ∧
    ∃ res res2,
      list_users none none none page_size db = Except.ok res ∧
      list_users none none none page_size (delete_user id now db).1 =
        Except.ok res2 ∧
      (∀ u ∈ res2.users, u.id.toString ≠ id.toString) ∧
      res2.users.length + 1 = res.users.length := by
  obtain ⟨L1, L2, rfl⟩ := List.append_of_mem hr
  have h1 : ∀ x ∈ L1, x.id ≠ r.id := by
    intro x hx
    rw [List.map_append, List.map_cons, List.nodup_append] at hnd
    intro he
    exact hnd.2.2 (List.mem_map_of_mem _ hx) (by rw [he]; exact List.mem_cons_self _ _)
  have h2 : ∀ x ∈ L2, x.id ≠ r.id := by
    intro x hx
    rw [List.map_append, List.map_cons, List.nodup_append] at hnd
    intro he
    exact (List.nodup_cons.mp hnd.2.1).1 (he ▸ List.mem_map_of_mem _ hx)
  -- the store after the delete
  have hdel : (delete_user id now (L1 ++ r :: L2)).1 =
      L1 ++ { r with deleted_at := some now, name := "Deleted User", email := none } :: L2 := by
    show (L1 ++ r :: L2).map _ = _
    rw [List.map_append, List.map_cons]
    have hL1 : L1.map (fun x => if x.id = id.toString then { x with deleted_at := some now, name := "Deleted User", email := none } else x) = L1 := by
      rw [List.map_congr_left (fun x hx => ?_), List.map_id]
      exact if_neg (fun he => h1 x hx (he.trans hrid.symm))
    have hL2 : L2.map (fun x => if x.id = id.toString then { x with deleted_at := some now, name := "Deleted User", email := none } else x) = L2 := by
      rw [List.map_congr_left (fun x hx => ?_), List.map_id]
      exact if_neg (fun he => h2 x hx (he.trans hrid.symm))
    rw [hL1, hL2, if_pos hrid]
  -- active rows before and after
  have hA : (L1 ++ r :: L2).filter (fun x => decide (x.deleted_at = none)) =
      L1.filter (fun x => decide (x.deleted_at = none)) ++
        r :: L2.filter (fun x => decide (x.deleted_at = none)) := by
    rw [List.filter_append, List.filter_cons_of_pos (by simp [hact])]
  have hA2 : (L1 ++ { r with deleted_at := some now, name := "Deleted User", email := none } :: L2).filter
      (fun x => decide (x.deleted_at = none)) =
      L1.filter (fun x => decide (x.deleted_at = none)) ++
        L2.filter (fun x => decide (x.deleted_at = none)) := by
    rw [List.filter_append, List.filter_cons_of_neg (by simp)]
  have hparse2 : ∀ x ∈ (delete_user id now (L1 ++ r :: L2)).1,
      (UserId.tryFrom x.id).isSome := by
    rw [hdel]
    intro x hx
    rcases List.mem_append.mp hx with hx1 | hx2
    · exact hparse x (List.mem_append_left _ hx1)
    · rcases List.mem_cons.mp hx2 with rfl | hx3
      · show (UserId.tryFrom r.id).isSome
        exact hparse r hr
      · exact hparse x (List.mem_append_right _ (List.mem_cons_of_mem _ hx3))
  refine ⟨(delete_result_some_iff id now _).mpr ⟨r, hr, hrid⟩, ?_⟩
  refine ⟨_, _, list_users_ok none none none page_size _ hparse, list_users_ok none none none page_size _ hparse2, ?_, ?_⟩
  · -- the deleted user no longer appears
    intro u hu
    dsimp only at hu
    obtain ⟨x, hx, rfl⟩ := List.mem_map.mp hu
    have hxdel := mem_fetchedRows_mem_db hx
    have hxdb := hxdel
    rw [hdel] at hxdb
    have hxfetch := hx
    rw [fetchedRows_nofilters] at hxfetch
    have hxact := (List.mem_insertionSort rowLe).mp (List.take_subset _ _ hxfetch)
    rw [hdel, hA2] at hxact
    have hxid : x.id ≠ r.id := by
      rcases List.mem_append.mp hxact with hx1 | hx2
      · exact h1 x (List.mem_of_mem_filter hx1)
      · exact h2 x (List.mem_of_mem_filter hx2)
    rw [toUserD_id_toString (hparse2 x hxdel)]
    rw [← hrid]
    exact hxid
  · -- the count decreases by exactly one
    dsimp only
    rw [List.length_map, List.length_map]
    rw [fetchedRows_nofilters, fetchedRows_nofilters, hdel, hA, hA2]
    have hlen1 : (L1.filter (fun x => decide (x.deleted_at = none)) ++
        r :: L2.filter (fun x => decide (x.deleted_at = none))).length ≤
        pageSizeOrPaginationMax page_size := by
      rw [← hA]
      exact hcount
    have hlen2 : (L1.filter (fun x => decide (x.deleted_at = none)) ++
        L2.filter (fun x => decide (x.deleted_at = none))).length ≤
        pageSizeOrPaginationMax page_size := by
      refine le_trans ?_ hlen1
      simp only [List.length_append, List.length_cons]
      omega
    rw [List.take_of_length_le (by rw [List.length_insertionSort]; exact hlen2)]
    rw [List.take_of_length_le (by rw [List.length_insertionSort]; exact hlen1)]
    rw [List.length_insertionSort, List.length_insertionSort]
    simp only [List.length_append, List.length_cons]
    omega

/-- Witness for C5 (amended) at a concrete input: deleting the active first
fixture row removes exactly it from the listing. -/
theorem claim5_witness :
    (([rowA, rowB].map StoredUser.id).Nodup ∧
      (∀ x ∈ [rowA, rowB], (UserId.tryFrom x.id).isSome) ∧
      rowA ∈ [rowA, rowB] ∧ rowA.id = uidA.toString ∧ rowA.deleted_at = none ∧
      ([rowA, rowB].filter (fun x => decide (x.deleted_at = none))).length ≤
        pageSizeOrPaginationMax (some 10)) ∧
    ((delete_user uidA 9 [rowA, rowB]).2 = some () ∧
      ∃ res res2,
        list_users none none none (some 10) [rowA, rowB] = Except.ok res ∧
        list_users none none none (some 10) (delete_user uidA 9 [rowA, rowB]).1 =
          Except.ok res2 ∧
        (∀ u ∈ res2.users, u.id.toString ≠ uidA.toString) ∧
        res2.users.length + 1 = res.users.length) :=
  ⟨⟨by decide, by decide, by decide, by decide, by decide, by decide⟩,
    claim5_delete_hides_from_list uidA 9 (some 10) [rowA, rowB] rowA
      (by decide) (by decide) (by decide) (by decide) (by decide) (by decide)⟩

/-! ### Claim C2: pagination machinery -/

theorem perm_pairwise_asymm_eq {α : Type} {R : α → α → Prop}
    (hasymm : ∀ a b, R a b → ¬ R b a) :
    ∀ {l₁ l₂ : List α}, l₁.Perm l₂ → l₁.Pairwise R → l₂.Pairwise R → l₁ = l₂ := by
  intro l₁
  induction l₁ with
  | nil => intro l₂ hp _ _; exact hp.nil_eq
  | cons a t ih =>
    intro l₂ hp hp1 hp2
    have ha2 : a ∈ l₂ := hp.subset (List.mem_cons_self _ _)
    obtain ⟨u, v, rfl⟩ := List.append_of_mem ha2
    have hu : u = [] := by
      rw [List.eq_nil_iff_forall_not_mem]
      intro x hx
      have hxa : R x a :=
        (List.pairwise_append.mp hp2).2.2 x hx a (List.mem_cons_self _ _)
      have hxmem : x ∈ a :: t := hp.symm.subset (List.mem_append_left _ hx)
      rcases List.mem_cons.mp hxmem with rfl | hxt
      · exact hasymm x x hxa hxa
      · exact hasymm a x (List.rel_of_pairwise_cons hp1 hxt) hxa
    subst hu
    rw [List.nil_append] at hp2 ⊢
    have hp3 := hp.cons_inv
    rw [ih hp3 hp1.of_cons hp2.of_cons]

theorem pairwise_rowLt_of_sorted_nodup {l : List StoredUser}
    (hs : l.Pairwise rowLe) (hnd : (l.map StoredUser.id).Nodup) :
    l.Pairwise rowLt := by
  have hne : l.Pairwise (fun a b => a.id ≠ b.id) := List.pairwise_map.mp hnd
  exact (hs.and hne).imp (fun h => rowLe_ne_imp_lt h.1 h.2)

theorem filter_insertionSort_comm (p : StoredUser → Bool) (l : List StoredUser)
    (hnd : (l.map StoredUser.id).Nodup) :
    (l.insertionSort rowLe).filter p = (l.filter p).insertionSort rowLe := by
  have hperm : ((l.insertionSort rowLe).filter p).Perm ((l.filter p).insertionSort rowLe) := by
    refine ((List.perm_insertionSort rowLe l).filter p).trans ?_
    exact (List.perm_insertionSort rowLe (l.filter p)).symm
  have hnd1 : ((l.insertionSort rowLe).map StoredUser.id).Nodup :=
    ((List.perm_insertionSort rowLe l).map StoredUser.id).nodup_iff.mpr hnd
  have hlt1 : ((l.insertionSort rowLe).filter p).Pairwise rowLt := by
    refine List.Pairwise.sublist (List.filter_sublist _) ?_
    exact pairwise_rowLt_of_sorted_nodup (List.sorted_insertionSort rowLe l) hnd1
  have hlt2 : ((l.filter p).insertionSort rowLe).Pairwise rowLt := by
    refine pairwise_rowLt_of_sorted_nodup (List.sorted_insertionSort rowLe _) ?_
    refine ((List.perm_insertionSort rowLe (l.filter p)).map StoredUser.id).nodup_iff.mpr ?_
    exact ((List.filter_sublist l).map StoredUser.id).nodup hnd
  exact perm_pairwise_asymm_eq (fun a b => rowLt_asymm) hperm hlt1 hlt2

theorem tokB_iff (x r : StoredUser) :
    (decide (x.created_at < r.created_at) ||
      (decide (r.created_at = x.created_at) && strLtB x.id r.id)) = true ↔
    rowLt x r := by
  unfold rowLt
  constructor
  · intro h
    rcases Bool.or_eq_true _ _ |>.mp h with h1 | h2
    · exact Or.inl (of_decide_eq_true h1)
    · have h3 := Bool.and_eq_true _ _ |>.mp h2
      exact Or.inr ⟨(of_decide_eq_true h3.1).symm, h3.2⟩
  · intro h
    rcases h with h1 | ⟨he, hs⟩
    · exact Bool.or_eq_true _ _ |>.mpr (Or.inl (decide_eq_true h1))
    · refine Bool.or_eq_true _ _ |>.mpr (Or.inr ?_)
      exact Bool.and_eq_true _ _ |>.mpr ⟨decide_eq_true he.symm, hs⟩

theorem tokFilter_of_append {A B : List StoredUser} {x : StoredUser}
    (hp : (A ++ x :: B).Pairwise rowLt) :
    tokFilter (some (PaginateToken.v1 ⟨x.created_at, x.id⟩)) (A ++ x :: B) = B := by
  obtain ⟨hpA, hpxB, hcross⟩ := List.pairwise_append.mp hp
  show (A ++ x :: B).filter _ = B
  rw [List.filter_append]
  have hA : A.filter (fun r =>
      decide (x.created_at < r.created_at) ||
        (decide (r.created_at = x.created_at) && strLtB x.id r.id)) = [] := by
    refine List.filter_eq_nil_iff.mpr ?_
    intro a ha h
    exact rowLt_asymm ((tokB_iff x a).mp h)
      (hcross a ha x (List.mem_cons_self _ _))
  have hx : (decide (x.created_at < x.created_at) ||
      (decide (x.created_at = x.created_at) && strLtB x.id x.id)) = false := by
    rcases h : (decide (x.created_at < x.created_at) ||
        (decide (x.created_at = x.created_at) && strLtB x.id x.id)) with _ | _
    · rfl
    · exact absurd ((tokB_iff x x).mp h) (rowLt_irrefl x)
  have hB : B.filter (fun r =>
      decide (x.created_at < r.created_at) ||
        (decide (r.created_at = x.created_at) && strLtB x.id r.id)) = B := by
    refine List.filter_eq_self.mpr ?_
    intro b hb
    exact (tokB_iff x b).mpr (List.rel_of_pairwise_cons hpxB hb)
  rw [hA, List.filter_cons_of_neg (by rw [hx]; exact Bool.false_ne_true), hB]
  rfl

theorem tokFilter_subset {tok : Option PaginateToken} {l : List StoredUser}
    {x : StoredUser} (h : x ∈ tokFilter tok l) : x ∈ l := by
  cases tok with
  | none => exact h
  | some t =>
    cases t
    exact List.mem_of_mem_filter h

theorem chunksOf_cons_of_pos {α : Type} {K : Nat} (hK : 0 < K) (a : α)
    (l : List α) :
    chunksOf K (a :: l) = ((a :: l).take K) :: chunksOf K ((a :: l).drop K) := by
  rw [chunksOf]
  rw [Nat.max_eq_left hK]

theorem chunksOf_nil {α : Type} {K : Nat} : chunksOf K ([] : List α) = [] := by
  rw [chunksOf]

theorem chunksOf_flatten_aux {α : Type} {K : Nat} (hK : 0 < K) :
    ∀ (n : Nat) (l : List α), l.length ≤ n → (chunksOf K l).flatten = l := by
  intro n
  induction n with
  | zero =>
    intro l hl
    rw [List.length_eq_zero.mp (Nat.le_zero.mp hl), chunksOf_nil]
    rfl
  | succ n ih =>
    intro l hl
    cases l with
    | nil => rw [chunksOf_nil]; rfl
    | cons a l2 =>
      rw [chunksOf_cons_of_pos hK, List.flatten_cons]
      rw [ih ((a :: l2).drop K) (by simp only [List.length_drop, List.length_cons] at hl ⊢; omega)]
      exact List.take_append_drop K (a :: l2)

theorem chunksOf_flatten {α : Type} {K : Nat} (hK : 0 < K) (l : List α) :
    (chunksOf K l).flatten = l := chunksOf_flatten_aux hK l.length l le_rfl

theorem chunksOf_ne_nil_aux {α : Type} {K : Nat} (hK : 0 < K) :
    ∀ (n : Nat) (l : List α), l.length ≤ n → ∀ p ∈ chunksOf K l, p ≠ [] := by
  intro n
  induction n with
  | zero =>
    intro l hl
    rw [List.length_eq_zero.mp (Nat.le_zero.mp hl), chunksOf_nil]
    intro p hp
    cases hp
  | succ n ih =>
    intro l hl
    cases l with
    | nil =>
      rw [chunksOf_nil]
      intro p hp
      cases hp
    | cons a l2 =>
      rw [chunksOf_cons_of_pos hK]
      intro p hp
      rcases List.mem_cons.mp hp with rfl | hp2
      · obtain ⟨k, rfl⟩ := Nat.exists_eq_succ_of_ne_zero (Nat.pos_iff_ne_zero.mp hK)
        rw [List.take_succ_cons]
        exact List.cons_ne_nil _ _
      · exact ih ((a :: l2).drop K)
          (by simp only [List.length_drop, List.length_cons] at hl ⊢; omega) p hp2

theorem chunksOf_ne_nil {α : Type} {K : Nat} (hK : 0 < K) (l : List α) :
    ∀ p ∈ chunksOf K l, p ≠ [] := chunksOf_ne_nil_aux hK l.length l le_rfl

theorem chunksOf_length_aux {α : Type} {K : Nat} (hK : 0 < K) :
    ∀ (n : Nat) (l : List α), l.length ≤ n →
      (chunksOf K l).length = (l.length + K - 1) / K := by
  intro n
  induction n with
  | zero =>
    intro l hl
    rw [List.length_eq_zero.mp (Nat.le_zero.mp hl), chunksOf_nil]
    show 0 = (0 + K - 1) / K
    rw [Nat.zero_add]
    exact (Nat.div_eq_of_lt (by omega)).symm
  | succ n ih =>
    intro l hl
    cases l with
    | nil =>
      rw [chunksOf_nil]
      show 0 = (0 + K - 1) / K
      rw [Nat.zero_add]
      exact (Nat.div_eq_of_lt (by omega)).symm
    | cons a l2 =>
      rw [chunksOf_cons_of_pos hK, List.length_cons]
      rw [ih ((a :: l2).drop K) (by simp only [List.length_drop, List.length_cons] at hl ⊢; omega)]
      rw [List.length_drop, List.length_cons]
      by_cases hsmall : l2.length + 1 ≤ K
      · have hdiv1 : (l2.length + 1 - K + K - 1) / K = 0 :=
          Nat.div_eq_of_lt (by omega)
        have hdiv2 : (l2.length + 1 + K - 1) / K = 1 :=
          Nat.div_eq_of_lt_le (by omega) (by omega)
        omega
      · have h3 : l2.length + 1 + K - 1 = (l2.length + 1 - K + K - 1) + K := by
          omega
        rw [h3, Nat.add_div_right _ hK]


theorem fetchedRows_token (db : List StoredUser) (K : Nat)
    (hact : ∀ r ∈ db, r.deleted_at = none)
    (hnd : (db.map StoredUser.id).Nodup)
    (hKm : K ≤ paginationMaxSize) (tok : Option PaginateToken) :
    fetchedRows none none tok (some K) db =
      (tokFilter tok (db.insertionSort rowLe)).take K := by
  have hpsz : pageSizeOrPaginationMax (some K) = K := by
    unfold pageSizeOrPaginationMax
    exact Nat.min_eq_left hKm
  cases tok with
  | none =>
    rw [fetchedRows_nofilters, hpsz]
    show _ = (db.insertionSort rowLe).take K
    rw [List.filter_eq_self.mpr (fun x hx => by simp [hact x hx])]
  | some t =>
    obtain ⟨v⟩ := t
    unfold fetchedRows
    simp only [Option.getD_none, Option.map_some']
    have hfil : db.filter (listPred "" none (some (v.created_at, v.id))) =
        db.filter (fun r =>
          decide (v.created_at < r.created_at) ||
            (decide (r.created_at = v.created_at) && strLtB v.id r.id)) := by
      refine List.filter_congr ?_
      intro x hx
      rw [listPred_nofilters]
      simp [hact x hx]
    rw [hpsz, hfil, ← filter_insertionSort_comm _ db hnd]
    rfl

theorem list_users_page (db : List StoredUser) (K : Nat)
    (hact : ∀ r ∈ db, r.deleted_at = none)
    (hnd : (db.map StoredUser.id).Nodup)
    (hparse : ∀ r ∈ db, (UserId.tryFrom r.id).isSome)
    (hKm : K ≤ paginationMaxSize) (tok : Option PaginateToken) :
    list_users none none tok (some K) db =
      Except.ok
        { users := ((tokFilter tok (db.insertionSort rowLe)).take K).map toUserD,
          next_page_token :=
            (((tokFilter tok (db.insertionSort rowLe)).take K).map
              toUserD).getLast?.map (fun u =>
                PaginateToken.v1 ⟨u.created_at, u.id.toString⟩) } := by
  rw [list_users_ok none none tok (some K) db hparse,
    fetchedRows_token db K hact hnd hKm tok]

theorem paginate_eq_chunks (db : List StoredUser) (K : Nat)
    (hact : ∀ r ∈ db, r.deleted_at = none)
    (hnd : (db.map StoredUser.id).Nodup)
    (hparse : ∀ r ∈ db, (UserId.tryFrom r.id).isSome)
    (hK : 0 < K) (hKm : K ≤ paginationMaxSize) :
    ∀ (fuel : Nat) (A B : List StoredUser) (tok : Option PaginateToken),
      db.insertionSort rowLe = A ++ B →
      tokFilter tok (db.insertionSort rowLe) = B →
      B.length < fuel →
      paginate db K fuel tok = chunksOf K (B.map toUserD) ++ [[]] := by
  intro fuel
  induction fuel with
  | zero =>
    intro A B tok _ _ h
    omega
  | succ n ih =>
    intro A B tok hsplit htok hfuel
    have hpage := list_users_page db K hact hnd hparse hKm tok
    rw [htok] at hpage
    simp only [paginate]
    rw [hpage]
    dsimp only
    cases B with
    | nil =>
      simp only [List.take_nil, List.map_nil, List.getLast?_nil, Option.map_none']
      rw [chunksOf_nil]
      rfl
    | cons b B2 =>
      have hCne : (b :: B2).take K ≠ [] := by
        obtain ⟨k, rfl⟩ := Nat.exists_eq_succ_of_ne_zero (Nat.pos_iff_ne_zero.mp hK)
        rw [List.take_succ_cons]
        exact List.cons_ne_nil _ _
      have hglmap : (((b :: B2).take K).map toUserD).getLast? =
          some (toUserD (((b :: B2).take K).getLast hCne)) := by
        rw [List.getLast?_map, List.getLast?_eq_getLast _ hCne, Option.map_some']
      have hxS : ((b :: B2).take K).getLast hCne ∈ db.insertionSort rowLe := by
        have hxTF : ((b :: B2).take K).getLast hCne ∈
            tokFilter tok (db.insertionSort rowLe) := by
          rw [htok]
          exact List.take_subset _ _ (List.getLast_mem hCne)
        exact tokFilter_subset hxTF
      have hxdb : ((b :: B2).take K).getLast hCne ∈ db :=
        (List.mem_insertionSort rowLe).mp hxS
      have hxparse := hparse _ hxdb
      rw [hglmap, Option.map_some']
      dsimp only
      simp only [toUserD_created_at, toUserD_id_toString hxparse]
      have hSlt : (db.insertionSort rowLe).Pairwise rowLt := by
        refine pairwise_rowLt_of_sorted_nodup (List.sorted_insertionSort rowLe db) ?_
        exact ((List.perm_insertionSort rowLe db).map StoredUser.id).nodup_iff.mpr hnd
      have hS2 : db.insertionSort rowLe =
          (A ++ ((b :: B2).take K).dropLast) ++
            (((b :: B2).take K).getLast hCne) :: (b :: B2).drop K := by
        rw [hsplit]
        conv_lhs => rw [← List.take_append_drop K (b :: B2)]
        conv_lhs => rw [← List.dropLast_append_getLast hCne]
        simp only [List.append_assoc, List.cons_append, List.nil_append,
          List.singleton_append]
      have htok2 : tokFilter (some (PaginateToken.v1
          ⟨(((b :: B2).take K).getLast hCne).created_at,
            (((b :: B2).take K).getLast hCne).id⟩)) (db.insertionSort rowLe) =
          (b :: B2).drop K := by
        rw [hS2]
        exact tokFilter_of_append (hS2 ▸ hSlt)
      have hrec := ih ((A ++ ((b :: B2).take K).dropLast) ++
          [((b :: B2).take K).getLast hCne]) ((b :: B2).drop K)
        (some (PaginateToken.v1
          ⟨(((b :: B2).take K).getLast hCne).created_at,
            (((b :: B2).take K).getLast hCne).id⟩))
        (by rw [hS2]; simp only [List.append_assoc, List.cons_append,
          List.nil_append, List.singleton_append]) htok2
        (by simp only [List.length_drop, List.length_cons] at hfuel ⊢; omega)
      rw [hrec]
      rw [List.map_cons, chunksOf_cons_of_pos hK, ← List.map_cons]
      rw [← List.map_take, ← List.map_drop]
      rfl

/-- Claim C2: a list call returns a next-page token computed from the last
returned row exactly when the page is non-empty (even when fewer rows than
requested were returned); paginating with page size K over N stored users
from an empty token until the token is absent yields ceil(N/K) non-empty
pages followed by exactly one empty terminal page, and the concatenation of
the non-empty pages is all N users in `(createdAt, id)` order with no
duplicates or omissions. -/
theorem claim2_pagination_completeness (db : List StoredUser) (K : Nat)
    (hact : ∀ r ∈ db, r.deleted_at = none)
    (hnd : (db.map StoredUser.id).Nodup)
    (hparse : ∀ r ∈ db, (UserId.tryFrom r.id).isSome)
    (hK : 0 < K) (hKm : K ≤ paginationMaxSize) :
    (∀ (db2 : List StoredUser) (fids : Option (List UserId))
        (fname : Option String) (ptok : Option PaginateToken)
        (psz : Option Nat) (res : ListUsersResponse),
      list_users fids fname ptok psz db2 = Except.ok res →
        ((res.users = [] ↔ res.next_page_token = none) ∧
          ∀ u, res.users.getLast? = some u →
            res.next_page_token =
              some (PaginateToken.v1 ⟨u.created_at, u.id.toString⟩))) ∧
    paginate db K (db.length + 1) none =
      chunksOf K ((db.insertionSort rowLe).map toUserD) ++ [[]] ∧
    (chunksOf K ((db.insertionSort rowLe).map toUserD)).length =
      (db.length + K - 1) / K ∧
    (∀ p ∈ chunksOf K ((db.insertionSort rowLe).map toUserD), p ≠ []) ∧
    (chunksOf K ((db.insertionSort rowLe).map toUserD)).flatten =
      (db.insertionSort rowLe).map toUserD ∧
    ((db.insertionSort rowLe).map toUserD).Pairwise userLt ∧
    ((db.insertionSort rowLe).map toUserD).Perm (db.map toUserD) := by
  refine ⟨?_, ?_, ?_, ?_, ?_, ?_, ?_⟩
  · -- the single-call token contract, for any call whatsoever
    intro db2 fids fname ptok psz res hok
    unfold list_users at hok
    cases hcol : collectUsers ((fetchedRows fids fname ptok psz db2).map
        StoredUser.toRow) with
    | error e =>
      rw [hcol] at hok
      exact Except.noConfusion hok
    | ok users =>
      rw [hcol] at hok
      cases hok
      constructor
      · constructor
        · intro h
          dsimp only at h ⊢
          rw [h]
          rfl
        · intro h
          dsimp only at h ⊢
          rcases Option.map_eq_none'.mp h with h2
          exact List.getLast?_eq_none_iff.mp h2
      · intro u hu
        dsimp only at hu ⊢
        rw [hu, Option.map_some']
  · -- the pagination loop yields the chunks plus one empty terminal page
    refine paginate_eq_chunks db K hact hnd hparse hK hKm (db.length + 1) []
      (db.insertionSort rowLe) none (List.nil_append _).symm rfl ?_
    rw [List.length_insertionSort]
    omega
  · -- number of non-empty pages
    rw [chunksOf_length_aux hK ((db.insertionSort rowLe).map toUserD).length _
      le_rfl, List.length_map, List.length_insertionSort]
  · exact chunksOf_ne_nil hK _
  · exact chunksOf_flatten hK _
  · -- strict (createdAt, id) order of the concatenated listing
    have hSlt : (db.insertionSort rowLe).Pairwise rowLt := by
      refine pairwise_rowLt_of_sorted_nodup (List.sorted_insertionSort rowLe db) ?_
      exact ((List.perm_insertionSort rowLe db).map StoredUser.id).nodup_iff.mpr hnd
    refine List.pairwise_map.mpr (hSlt.imp_of_mem ?_)
    intro a b hma hmb hab
    have hpa := hparse a ((List.mem_insertionSort rowLe).mp hma)
    have hpb := hparse b ((List.mem_insertionSort rowLe).mp hmb)
    unfold userLt
    rw [toUserD_created_at, toUserD_created_at, toUserD_id_toString hpa,
      toUserD_id_toString hpb]
    exact hab
  · exact (List.perm_insertionSort rowLe db).map toUserD

/-- Witness for C2 at a concrete input: three users paginated two at a time
give two non-empty pages and one empty terminal page. -/
theorem claim2_witness :
    ((∀ r ∈ [rowB, rowC, rowA], r.deleted_at = none) ∧
      ([rowB, rowC, rowA].map StoredUser.id).Nodup ∧
      (∀ r ∈ [rowB, rowC, rowA], (UserId.tryFrom r.id).isSome) ∧
      0 < 2 ∧ 2 ≤ paginationMaxSize) ∧
    paginate [rowB, rowC, rowA] 2 ([rowB, rowC, rowA].length + 1) none =
      chunksOf 2 (([rowB, rowC, rowA].insertionSort rowLe).map toUserD) ++ [[]] :=
  ⟨⟨by decide, by decide, by decide, by decide, by decide⟩,
    (claim2_pagination_completeness [rowB, rowC, rowA] 2 (by decide) (by decide)
      (by decide) (by decide) (by decide)).2.1⟩

end Lakekeeper
